import Mathlib

/-!
# Pass the Pigs — verification of the game-state engine

Shallow embedding of the core engine of the single-file React game
(`src/unnamed/part_001`): the pose enumeration, the scoring function
`scorePair`, the weighted sampler `randWeighted`, and the three actions
`roll` / `passThePigs` / `hold` acting on the `GameState` record.

Modelling conventions:
* TypeScript numbers holding scores, turn points, targets and turn counters
  are natural numbers (they are only ever incremented or summed).
* Outcome weights and the `Math.random()` draws are rationals.
* `Record<PigPose, number>` becomes a function `PigPose → ℚ`; its fixed
  `Object.entries` iteration order (the insertion order of the literal)
  is the list `poseOrder`.
* `Record<string, boolean>` (the final-round flags) becomes an association
  list `List (String × Bool)` in insertion order, with insert-or-overwrite
  `recSet` and lookup `recGet` mirroring JS property assignment/read.
* Actions return `Option GameState`: `some` is the state after the call
  (including the silently-ignored case, which returns the state unchanged),
  `none` models a thrown TypeError (reading `players[currentIndex]` when the
  index is out of range).  The React-local animation flag `rolling` and the
  wall-clock `timestamp` field of a score entry are presentation-level and
  are not modelled.
-/

/-- The six die outcomes (`PigPose` in the source). -/
inductive PigPose where
  | siderLeft
  | siderRight
  | razorback
  | trotter
  | snouter
  | leaningJowler
deriving DecidableEq, Repr, Fintype

open PigPose

/-- Source `POSE_VALUES`: base value of each pose (siders are 0, used only in the
sider/sider logic). -/
def POSE_VALUES : PigPose → Nat
  | siderLeft => 0
  | siderRight => 0
  | razorback => 5
  | trotter => 5
  | snouter => 10
  | leaningJowler => 15

/-- The TypeScript string literal naming each pose. -/
def poseName : PigPose → String
  | siderLeft => "Sider-Left"
  | siderRight => "Sider-Right"
  | razorback => "Razorback"
  | trotter => "Trotter"
  | snouter => "Snouter"
  | leaningJowler => "Leaning Jowler"

/-- Source `isSider` from `scorePair`. -/
def isSider (p : PigPose) : Bool := p == siderLeft || p == siderRight

/-- Result of `scorePair`: `{ points, event }`. -/
structure ScoreResult where
  points : Nat
  event : String
deriving DecidableEq, Repr

/-- Source `scorePair` — scores a pair of pigs by the simplified classic rules,
checking in order: opposite siders (Pig Out), same-side siders, exactly one
sider, identical non-siders (double), different non-siders (sum). -/
def scorePair (a b : PigPose) : ScoreResult :=
  if (a = siderLeft ∧ b = siderRight) ∨ (a = siderRight ∧ b = siderLeft) then
    { points := 0, event := "Pig Out — turn ends" }
  else if (a = siderLeft ∧ b = siderLeft) ∨ (a = siderRight ∧ b = siderRight) then
    { points := 1, event := "Sider (same sides)" }
  else if isSider a ∧ ¬ (isSider b = true) then
    { points := POSE_VALUES b,
      event := poseName b ++ " (+" ++ toString (POSE_VALUES b) ++ ")" }
  else if ¬ (isSider a = true) ∧ isSider b then
    { points := POSE_VALUES a,
      event := poseName a ++ " (+" ++ toString (POSE_VALUES a) ++ ")" }
  else if a = b then
    { points := (POSE_VALUES a + POSE_VALUES b) * 2,
      event := "Double " ++ poseName a ++ " (+"
        ++ toString ((POSE_VALUES a + POSE_VALUES b) * 2) ++ ")" }
  else
    { points := POSE_VALUES a + POSE_VALUES b,
      event := poseName a ++ " + " ++ poseName b ++ " (+"
        ++ toString (POSE_VALUES a + POSE_VALUES b) ++ ")" }

/-- Character-list test that `p` begins `s`; used to model
`String.prototype.startsWith` from JS (`event.startsWith("Pig Out")`). -/
def strPre : List Char → List Char → Bool
  | [], _ => true
  | _ :: _, [] => false
  | c :: cs, d :: ds => c == d && strPre cs ds

/-- Source `s.startsWith p` as used by the source. -/
def strStartsWith (s p : String) : Bool := strPre p.data s.data

/-- Source `Math.max 0 w` on rationals (negative weights clamp to zero). -/
def mmax (a b : ℚ) : ℚ := if a ≤ b then b else a

/-- The fixed, stable iteration order of `Object.entries` over the weight
record: insertion order of the `Record<PigPose, number>` literals. -/
def poseOrder : List PigPose :=
  [siderLeft, siderRight, razorback, trotter, snouter, leaningJowler]

/-- Source `entries.reduce((a, [, w]) => a + Math.max(0, w), 0)` — the clamped
total weight. -/
def clampedTotal (w : PigPose → ℚ) : ℚ :=
  poseOrder.foldl (fun a p => a + mmax 0 (w p)) 0

/-- The cumulative-weight scan of `randWeighted`: subtract each clamped
weight from the remainder, returning the pose once the remainder is ≤ 0. -/
def scanPose (w : PigPose → ℚ) : ℚ → List PigPose → Option PigPose
  | _, [] => none
  | r, p :: rest =>
    if r - mmax 0 (w p) ≤ 0 then some p else scanPose w (r - mmax 0 (w p)) rest

/-- Source `randWeighted(weights)` with `u` standing for the `Math.random()` draw in
`[0, 1)`: scan the pose list with remainder `u * total`; the fallback
`entries[entries.length - 1][0]` is the last pose of the fixed order. -/
def randWeighted (w : PigPose → ℚ) (u : ℚ) : PigPose :=
  match scanPose w (u * clampedTotal w) poseOrder with
  | some p => p
  | none => poseOrder.getLastD siderLeft

/-- Source `Player`: stable id, display name, cumulative banked score. -/
structure Player where
  id : String
  name : String
  score : Nat
deriving DecidableEq, Repr

/-- One entry of the current-turn ledger (`Roll` in the source). -/
structure RollRec where
  pigs : PigPose × PigPose
  points : Nat
  event : String
deriving DecidableEq, Repr

/-- The action that ended a turn: `'hold' | 'pass_pigs'`. -/
inductive ScoreAction where
  | hold
  | passPigs
deriving DecidableEq, Repr

/-- Source `ScoreEntry` minus the wall-clock `timestamp` (not modelled). -/
structure ScoreEntry where
  playerId : String
  playerName : String
  turnNumber : Nat
  previousScore : Nat
  newScore : Nat
  pointsEarned : Nat
  action : ScoreAction
deriving DecidableEq, Repr

/-- The engine part of `GameState` (presentation settings other than the
outcome weights are omitted). -/
structure GameState where
  started : Bool
  target : Nat
  players : List Player
  currentIndex : Nat
  turnPoints : Nat
  history : List RollRec
  scoreHistory : List ScoreEntry
  currentTurnNumber : Nat
  weights : PigPose → ℚ
  finalRound : Bool
  finalLeaderIndex : Option Nat
  finalLeaderScore : Nat
  finalTurns : Option (List (String × Bool))
  needsToPassPigs : Bool

/-- JS object property read on the final-turns record. -/
def recGet : List (String × Bool) → String → Option Bool
  | [], _ => none
  | (k', v) :: rest, k => if k' = k then some v else recGet rest k

/-- JS object property assignment (`turns[id] = v`): overwrite in place,
else append, preserving insertion order. -/
def recSet : List (String × Bool) → String → Bool → List (String × Bool)
  | [], k, v => [(k, v)]
  | (k', v') :: rest, k, v =>
    if k' = k then (k, v) :: rest else (k', v') :: recSet rest k v

/-- Lookup through the optional final-turns record. -/
def ftGet (m : Option (List (String × Bool))) (k : String) : Option Bool :=
  match m with
  | none => none
  | some l => recGet l k

/-- Source `Boolean(finalTurns && Object.values(finalTurns).every(Boolean))`. -/
def allFinalTrue : Option (List (String × Bool)) → Bool
  | none => false
  | some m => m.all (fun e => e.2)

/-- Source `finalDone`: final round active and every final-turn flag used. -/
def finalDone (s : GameState) : Bool := s.finalRound && allFinalTrue s.finalTurns

/-- One step of `players.reduce((best, p) => (!best || p.score > best.score ? p : best), null)`. -/
def bestStep (best : Option Player) (p : Player) : Option Player :=
  match best with
  | none => some p
  | some b => if b.score < p.score then some p else some b

/-- The derived winner: first player with the strictly highest score, only
once `finalDone` holds. -/
def winner (s : GameState) : Option Player :=
  if finalDone s then s.players.foldl bestStep none else none

/-- Truthiness of `winner` — the guard used by all three actions. -/
def winnerExists (s : GameState) : Bool := (winner s).isSome

/-- Source `players.map((p, i) => i === currentIndex ? { ...p, score: p.score + pts } : p)`;
`c` is the running map index. -/
def bankMap (idx c pts : Nat) : List Player → List Player
  | [] => []
  | p :: rest =>
    (if c = idx then { p with score := p.score + pts } else p)
      :: bankMap idx (c + 1) pts rest

/-- Source `roll()` minus animation/sound: the winner guard, two weighted draws
(`u1`, `u2` standing for the two `Math.random()` calls), scoring, ledger
append, and either turn-point accumulation or entering the blocked-on-pass
sub-state.  Note the source guard is only `if (rolling || winner) return` —
there is no `needsToPassPigs` check. -/
def rollAction (u1 u2 : ℚ) (s : GameState) : Option GameState :=
  if winnerExists s then some s
  else
    let a := randWeighted s.weights u1
    let b := randWeighted s.weights u2
    let res := scorePair a b
    let pigOut := strStartsWith res.event "Pig Out"
    let newHistory := s.history ++ [{ pigs := (a, b), points := res.points, event := res.event }]
    if pigOut = false then
      some { s with history := newHistory, turnPoints := s.turnPoints + res.points }
    else
      some { s with history := newHistory, needsToPassPigs := true }

/-- The successful body of `passThePigs()`, given the current player `cur`
(`s.players[s.currentIndex]`). -/
def passState (s : GameState) (cur : Player) : GameState :=
  let nextIndex := (s.currentIndex + 1) % s.players.length
  let ft : Option (List (String × Bool)) :=
    match s.finalTurns with
    | none => none
    | some m => some (if s.finalRound = true then recSet m cur.id true else m)
  let entry : ScoreEntry :=
    { playerId := cur.id
      playerName := cur.name
      turnNumber := s.currentTurnNumber
      previousScore := cur.score
      newScore := cur.score
      pointsEarned := 0
      action := ScoreAction.passPigs }
  { s with
    history := []
    turnPoints := 0
    currentIndex := nextIndex
    finalTurns := ft
    needsToPassPigs := false
    scoreHistory := s.scoreHistory ++ [entry]
    currentTurnNumber := if nextIndex = 0 then s.currentTurnNumber + 1 else s.currentTurnNumber }

/-- Source `passThePigs()`: guard `if (rolling || winner || !needsToPassPigs) return`,
then end the turn with 0 points banked. -/
def passAction (s : GameState) : Option GameState :=
  if winnerExists s || !s.needsToPassPigs then some s
  else
    match s.players.get? s.currentIndex with
    | none => none
    | some cur => some (passState s cur)

/-- The `hold()` branch shared by "normal hold" (no final round, below
target); it also receives the already-banked player list and score entry. -/
def holdNormal (s : GameState) (players : List Player) (entry : ScoreEntry) : GameState :=
  { s with
    players := players
    turnPoints := 0
    history := []
    currentIndex := (s.currentIndex + 1) % s.players.length
    needsToPassPigs := false
    scoreHistory := s.scoreHistory ++ [entry]
    currentTurnNumber :=
      if (s.currentIndex + 1) % s.players.length = 0
      then s.currentTurnNumber + 1 else s.currentTurnNumber }

/-- The successful body of `hold()`, given `me0 = s.players[s.currentIndex]`.
`players` is the banked list; `me` is its entry at `currentIndex` (the bank
applied to `me0`, see `bankMap_get?`). -/
def holdState (s : GameState) (me0 : Player) : GameState :=
  let players := bankMap s.currentIndex 0 s.turnPoints s.players
  let me : Player := { me0 with score := me0.score + s.turnPoints }
  let entry : ScoreEntry :=
    { playerId := me.id
      playerName := me.name
      turnNumber := s.currentTurnNumber
      previousScore := me0.score
      newScore := me.score
      pointsEarned := s.turnPoints
      action := ScoreAction.hold }
  if s.finalRound = false ∧ s.target ≤ me.score then
    let turns := recSet (players.foldl (fun m p => recSet m p.id false) []) me.id true
    let nextIndex := (s.currentIndex + 1) % players.length
    { s with
      players := players
      turnPoints := 0
      history := []
      currentIndex := nextIndex
      finalRound := true
      finalLeaderIndex := some s.currentIndex
      finalLeaderScore := me.score
      finalTurns := some turns
      needsToPassPigs := false
      scoreHistory := s.scoreHistory ++ [entry]
      currentTurnNumber := if nextIndex = 0 then s.currentTurnNumber + 1 else s.currentTurnNumber }
  else
    match s.finalTurns with
    | some m =>
      if s.finalRound = true then
        let turns := recSet m me.id true
        let nextIndex := (s.currentIndex + 1) % players.length
        { s with
          players := players
          turnPoints := 0
          history := []
          currentIndex := nextIndex
          finalTurns := some turns
          finalLeaderScore := max s.finalLeaderScore me.score
          needsToPassPigs := false
          scoreHistory := s.scoreHistory ++ [entry]
          currentTurnNumber := if nextIndex = 0 then s.currentTurnNumber + 1 else s.currentTurnNumber }
      else holdNormal s players entry
    | none => holdNormal s players entry

/-- Source `hold()`: guard `if (rolling || winner) return`, then bank the turn
points and branch on the final-round status. -/
def holdAction (s : GameState) : Option GameState :=
  if winnerExists s then some s
  else
    match s.players.get? s.currentIndex with
    | none => none
    | some me0 => some (holdState s me0)

/-- An engine action; `roll` carries the two uniform draws. -/
inductive Act where
  | roll (u1 u2 : ℚ)
  | pass
  | hold

/-- Dispatch one action. -/
def applyAct : Act → GameState → Option GameState
  | Act.roll u1 u2, s => rollAction u1 u2 s
  | Act.pass, s => passAction s
  | Act.hold, s => holdAction s

/-- Run a sequence of actions, propagating a thrown error as `none`. -/
def applyActs : List Act → GameState → Option GameState
  | [], s => some s
  | a :: rest, s =>
    match applyAct a s with
    | none => none
    | some s' => applyActs rest s'

/-- Opposite siders in either order — the Pig Out pair. -/
def oppositeSiders : PigPose → PigPose → Bool
  | siderLeft, siderRight => true
  | siderRight, siderLeft => true
  | _, _ => false

/-- The rule table exactly as the spec words it, in its priority order:
opposite siders 0; same-side siders 1; one sider with non-sider `P` the base
value of `P`; identical non-siders twice the pair sum; different non-siders
the pair sum.  Spec-side definition used to check `scorePair` against. -/
def specScorePoints (a b : PigPose) : Nat :=
  if oppositeSiders a b then 0
  else if isSider a && isSider b then 1
  else if isSider a then POSE_VALUES b
  else if isSider b then POSE_VALUES a
  else if a = b then 2 * (POSE_VALUES a + POSE_VALUES b)
  else POSE_VALUES a + POSE_VALUES b

/-- Source `bestStep` once the accumulator is non-null: keep the incumbent unless the
challenger's score is strictly greater. -/
def bestP (b p : Player) : Player := if b.score < p.score then p else b

/-- The banked total a (non-ignored) `hold()` would produce from state `s`:
the current player's score plus the turn points (empty if the call would be
ignored or would throw). -/
def holdBanked (s : GameState) : List Nat :=
  if winnerExists s then []
  else
    match s.players.get? s.currentIndex with
    | none => []
    | some me0 => [me0.score + s.turnPoints]

/-- The banked totals contributed by one action: only `hold` banks. -/
def stepBanked (a : Act) (s : GameState) : List Nat :=
  match a with
  | Act.hold => holdBanked s
  | _ => []

/-- All banked totals produced by the holds of an action trace from `s`. -/
def traceBanked : List Act → GameState → List Nat
  | [], _ => []
  | a :: rest, s =>
    stepBanked a s ++
      (match applyAct a s with
       | none => []
       | some s' => traceBanked rest s')

/-- Weight map giving positive weight only to the Razorback pose. -/
def w8 : PigPose → ℚ := fun p => if p = razorback then 1 else 0

/-- Concrete state blocked on "Pass the Pigs" (after a Pig Out), no winner. -/
def sBlocked : GameState :=
  { started := true
    target := 100
    players := [{ id := "p1", name := "P1", score := 0 }, { id := "p2", name := "P2", score := 0 }]
    currentIndex := 0
    turnPoints := 0
    history := []
    scoreHistory := []
    currentTurnNumber := 1
    weights := fun _ => 0
    finalRound := false
    finalLeaderIndex := none
    finalLeaderScore := 0
    finalTurns := none
    needsToPassPigs := true }

/-- Concrete completed match: final round over, every flag used. -/
def sComplete : GameState :=
  { started := true
    target := 20
    players := [{ id := "p1", name := "P1", score := 30 }, { id := "p2", name := "P2", score := 10 }]
    currentIndex := 0
    turnPoints := 0
    history := []
    scoreHistory := []
    currentTurnNumber := 3
    weights := fun _ => 0
    finalRound := true
    finalLeaderIndex := some 0
    finalLeaderScore := 30
    finalTurns := some [("p1", true), ("p2", true)]
    needsToPassPigs := false }

/-- Concrete completed match used for the winner-characterisation witness. -/
def sWin : GameState :=
  { started := true
    target := 20
    players := [{ id := "p1", name := "P1", score := 30 }, { id := "p2", name := "P2", score := 10 }]
    currentIndex := 0
    turnPoints := 0
    history := []
    scoreHistory := []
    currentTurnNumber := 3
    weights := fun _ => 0
    finalRound := true
    finalLeaderIndex := some 0
    finalLeaderScore := 30
    finalTurns := some [("p1", true), ("p2", true)]
    needsToPassPigs := false }

/-- Concrete pre-final-round state about to trigger it by holding 25 ≥ 20. -/
def sTrig : GameState :=
  { started := true
    target := 20
    players := [{ id := "p1", name := "P1", score := 0 }, { id := "p2", name := "P2", score := 0 }]
    currentIndex := 0
    turnPoints := 25
    history := []
    scoreHistory := []
    currentTurnNumber := 1
    weights := fun _ => 0
    finalRound := false
    finalLeaderIndex := none
    finalLeaderScore := 0
    finalTurns := none
    needsToPassPigs := false }

/-- Concrete active final round (one flag still unused), not blocked. -/
def sFinal : GameState :=
  { started := true
    target := 20
    players := [{ id := "a", name := "A", score := 25 }, { id := "b", name := "B", score := 0 }]
    currentIndex := 1
    turnPoints := 10
    history := []
    scoreHistory := []
    currentTurnNumber := 2
    weights := fun _ => 0
    finalRound := true
    finalLeaderIndex := some 0
    finalLeaderScore := 25
    finalTurns := some [("a", true), ("b", false)]
    needsToPassPigs := false }

/-- The state `sFinal` after player "b" holds their 10 turn points. -/
def sFinalHeld : GameState :=
  { started := true
    target := 20
    players := [{ id := "a", name := "A", score := 25 }, { id := "b", name := "B", score := 10 }]
    currentIndex := 0
    turnPoints := 0
    history := []
    scoreHistory := [{ playerId := "b"
                       playerName := "B"
                       turnNumber := 2
                       previousScore := 0
                       newScore := 10
                       pointsEarned := 10
                       action := ScoreAction.hold }]
    currentTurnNumber := 3
    weights := fun _ => 0
    finalRound := true
    finalLeaderIndex := some 0
    finalLeaderScore := 25
    finalTurns := some [("a", true), ("b", true)]
    needsToPassPigs := false }

/-- Concrete state blocked on "Pass the Pigs" with a roll in the ledger. -/
def sPass : GameState :=
  { started := true
    target := 100
    players := [{ id := "p1", name := "P1", score := 4 }, { id := "p2", name := "P2", score := 9 }]
    currentIndex := 0
    turnPoints := 7
    history := [{ pigs := (siderLeft, siderRight), points := 0, event := "Pig Out — turn ends" }]
    scoreHistory := []
    currentTurnNumber := 1
    weights := fun _ => 0
    finalRound := false
    finalLeaderIndex := none
    finalLeaderScore := 0
    finalTurns := none
    needsToPassPigs := true }

/-- Concrete mid-game state for a plain hold. -/
def sHold : GameState :=
  { started := true
    target := 100
    players := [{ id := "p1", name := "P1", score := 0 }, { id := "p2", name := "P2", score := 3 }]
    currentIndex := 0
    turnPoints := 5
    history := []
    scoreHistory := []
    currentTurnNumber := 1
    weights := fun _ => 0
    finalRound := false
    finalLeaderIndex := none
    finalLeaderScore := 0
    finalTurns := none
    needsToPassPigs := false }

/-! ## Helper lemmas -/

theorem winnerExists_false_of_not_final (s : GameState) (h : s.finalRound = false) :
    winnerExists s = false := by
  simp [winnerExists, winner, finalDone, h]

theorem mmax_of_nonpos (x : ℚ) (h : x ≤ 0) : mmax 0 x = 0 := by
  unfold mmax
  by_cases h0 : (0 : ℚ) ≤ x
  · rw [if_pos h0]
    exact le_antisymm h h0
  · rw [if_neg h0]

theorem mmax_of_nonneg (x : ℚ) (h : 0 ≤ x) : mmax 0 x = x := by
  unfold mmax
  rw [if_pos h]

theorem mmax_nonneg (x : ℚ) : 0 ≤ mmax 0 x := by
  unfold mmax
  by_cases h0 : (0 : ℚ) ≤ x
  · rw [if_pos h0]
    exact h0
  · rw [if_neg h0]

theorem randWeighted_const_zero (u : ℚ) : randWeighted (fun _ => 0) u = siderLeft := by
  have htot : clampedTotal (fun _ => 0) = 0 := by
    simp [clampedTotal, poseOrder, mmax]
  unfold randWeighted
  rw [htot, mul_zero]
  simp [scanPose, poseOrder, mmax]

theorem randWeighted_zero_draw (w : PigPose → ℚ) : randWeighted w 0 = siderLeft := by
  unfold randWeighted
  rw [zero_mul]
  have hcond : (0 : ℚ) - mmax 0 (w siderLeft) ≤ 0 := by
    have := mmax_nonneg (w siderLeft)
    linarith
  simp only [poseOrder, scanPose]
  rw [if_pos hcond]

theorem scanPose_skip (w : PigPose → ℚ) (r : ℚ) (hr : 0 < r) :
    ∀ (zs l : List PigPose), (∀ q ∈ zs, w q ≤ 0) →
      scanPose w r (zs ++ l) = scanPose w r l := by
  intro zs
  induction zs with
  | nil => intro l _; rfl
  | cons q zs ih =>
    intro l hz
    have hm : mmax 0 (w q) = 0 := mmax_of_nonpos _ (hz q (by simp))
    simp only [List.cons_append, scanPose, hm, sub_zero]
    rw [if_neg (not_le.mpr hr)]
    exact ih l (fun q' hq' => hz q' (by simp [hq']))

theorem scanPose_hit (w : PigPose → ℚ) (r : ℚ) (P : PigPose) (rest : List PigPose)
    (h0 : 0 ≤ w P) (hle : r - w P ≤ 0) :
    scanPose w r (P :: rest) = some P := by
  have hm : mmax 0 (w P) = w P := mmax_of_nonneg _ h0
  simp only [scanPose, hm]
  rw [if_pos hle]

theorem clampedTotal_single (w : PigPose → ℚ) (P : PigPose) (h0 : 0 ≤ w P)
    (hz : ∀ q, q ≠ P → w q ≤ 0) : clampedTotal w = w P := by
  have hif : ∀ q, mmax 0 (w q) = if q = P then w P else 0 := by
    intro q
    by_cases h : q = P
    · subst h
      rw [if_pos rfl]
      exact mmax_of_nonneg _ h0
    · rw [if_neg h]
      exact mmax_of_nonpos _ (hz q h)
  simp only [clampedTotal, poseOrder, List.foldl, hif]
  cases P <;> simp

theorem recGet_recSet_same (m : List (String × Bool)) (k : String) (v : Bool) :
    recGet (recSet m k v) k = some v := by
  induction m with
  | nil => simp [recSet, recGet]
  | cons e rest ih =>
    obtain ⟨k', v'⟩ := e
    by_cases h : k' = k
    · subst h
      simp [recSet, recGet]
    · simp [recSet, recGet, h, ih]

theorem recGet_recSet_other (m : List (String × Bool)) (k k2 : String) (v : Bool)
    (h : k ≠ k2) : recGet (recSet m k v) k2 = recGet m k2 := by
  induction m with
  | nil => simp [recSet, recGet, h]
  | cons e rest ih =>
    obtain ⟨k', v'⟩ := e
    by_cases hk : k' = k
    · subst hk
      simp [recSet, recGet, h]
    · simp [recSet, recGet, hk, ih]

theorem recGet_build (l : List Player) (m0 : List (String × Bool)) (k : String) :
    recGet (l.foldl (fun m p => recSet m p.id false) m0) k =
      if k ∈ l.map Player.id then some false else recGet m0 k := by
  induction l generalizing m0 with
  | nil => simp
  | cons p rest ih =>
    simp only [List.foldl_cons, List.map_cons, List.mem_cons]
    rw [ih]
    by_cases hk : k ∈ rest.map Player.id
    · simp [hk]
    · by_cases hp : p.id = k
      · subst hp
        simp [hk, recGet_recSet_same]
      · have hne : ¬ (k = p.id) := fun he => hp he.symm
        simp only [hk, if_false, hne, false_or, if_neg hne]
        exact recGet_recSet_other m0 p.id k false hp

theorem recGet_recSet_true_mono (m : List (String × Bool)) (k k2 : String)
    (h : recGet m k = some true) : recGet (recSet m k2 true) k = some true := by
  by_cases hk : k2 = k
  · subst hk
    exact recGet_recSet_same m k2 true
  · rw [recGet_recSet_other m k2 k true hk]
    exact h

theorem bankMap_length (idx pts : Nat) (l : List Player) :
    ∀ c, (bankMap idx c pts l).length = l.length := by
  induction l with
  | nil => intro c; rfl
  | cons p rest ih => intro c; simp [bankMap, ih]

theorem bankMap_get? (idx pts : Nat) (l : List Player) :
    ∀ c j, (bankMap idx c pts l).get? j =
      (l.get? j).map
        (fun p => if c + j = idx then { p with score := p.score + pts } else p) := by
  induction l with
  | nil => intro c j; simp [bankMap]
  | cons p rest ih =>
    intro c j
    cases j with
    | zero => simp [bankMap]
    | succ j =>
      simp only [bankMap, List.get?_cons_succ]
      rw [ih (c + 1) j]
      have harith : c + 1 + j = c + (j + 1) := by omega
      rw [harith]

theorem bankMap_map_id (idx pts : Nat) (l : List Player) :
    ∀ c, (bankMap idx c pts l).map Player.id = l.map Player.id := by
  induction l with
  | nil => intro c; rfl
  | cons p rest ih =>
    intro c
    simp only [bankMap, List.map_cons, ih]
    congr 1
    by_cases h : c = idx <;> simp [h]

theorem bestStep_some (b p : Player) : bestStep (some b) p = some (bestP b p) := by
  by_cases h : b.score < p.score <;> simp [bestStep, bestP, h]

theorem foldl_bestStep_some (l : List Player) :
    ∀ b, l.foldl bestStep (some b) = some (l.foldl bestP b) := by
  induction l with
  | nil => intro b; rfl
  | cons p rest ih =>
    intro b
    simp only [List.foldl_cons, bestStep_some]
    exact ih (bestP b p)

theorem foldl_bestP_le (l : List Player) :
    ∀ b, b.score ≤ (l.foldl bestP b).score ∧
      ∀ q ∈ l, q.score ≤ (l.foldl bestP b).score := by
  induction l with
  | nil =>
    intro b
    exact ⟨le_refl _, by simp⟩
  | cons p rest ih =>
    intro b
    obtain ⟨h1, h2⟩ := ih (bestP b p)
    have hb : b.score ≤ (bestP b p).score := by
      unfold bestP
      split
      · exact Nat.le_of_lt (by assumption)
      · exact le_refl _
    have hp : p.score ≤ (bestP b p).score := by
      unfold bestP
      split
      · exact le_refl _
      · exact Nat.le_of_not_lt (by assumption)
    simp only [List.foldl_cons]
    refine ⟨le_trans hb h1, ?_⟩
    intro q hq
    rcases List.mem_cons.mp hq with rfl | hq'
    · exact le_trans hp h1
    · exact h2 q hq'

theorem foldl_bestP_first (l : List Player) :
    ∀ b, l.foldl bestP b = b ∨
      ∃ l₁ l₂, l = l₁ ++ (l.foldl bestP b) :: l₂ ∧
        b.score < (l.foldl bestP b).score ∧
        ∀ q ∈ l₁, q.score < (l.foldl bestP b).score := by
  induction l with
  | nil => intro b; exact Or.inl rfl
  | cons p rest ih =>
    intro b
    simp only [List.foldl_cons]
    by_cases h : b.score < p.score
    · have hb : bestP b p = p := by simp [bestP, h]
      rw [hb]
      rcases ih p with h1 | ⟨l₁, l₂, heq, hlt, hall⟩
      · rw [h1]
        exact Or.inr ⟨[], rest, by simp, h, by simp⟩
      · refine Or.inr ⟨p :: l₁, l₂, ?_, lt_trans h hlt, ?_⟩
        · rw [List.cons_append]
          exact congrArg (List.cons p) heq
        intro q hq
        rcases List.mem_cons.mp hq with rfl | hq'
        · exact hlt
        · exact hall q hq'
    · have hb : bestP b p = b := by simp [bestP, h]
      rw [hb]
      rcases ih b with h1 | ⟨l₁, l₂, heq, hlt, hall⟩
      · exact Or.inl h1
      · refine Or.inr ⟨p :: l₁, l₂, ?_, hlt, ?_⟩
        · rw [List.cons_append]
          exact congrArg (List.cons p) heq
        intro q hq
        rcases List.mem_cons.mp hq with rfl | hq'
        · exact lt_of_le_of_lt (Nat.le_of_not_lt h) hlt
        · exact hall q hq'

theorem holdAction_eq (s : GameState) (me0 : Player)
    (hw : winnerExists s = false) (hg : s.players.get? s.currentIndex = some me0) :
    holdAction s = some (holdState s me0) := by
  simp only [List.get?_eq_getElem?] at hg
  simp [holdAction, hw, hg]

theorem passAction_eq (s : GameState) (cur : Player)
    (hw : winnerExists s = false) (hnp : s.needsToPassPigs = true)
    (hg : s.players.get? s.currentIndex = some cur) :
    passAction s = some (passState s cur) := by
  simp only [List.get?_eq_getElem?] at hg
  simp [passAction, hw, hnp, hg]

theorem holdState_trigger (s : GameState) (me0 : Player)
    (hfr : s.finalRound = false) (htgt : s.target ≤ me0.score + s.turnPoints) :
    holdState s me0 =
      { s with
        players := bankMap s.currentIndex 0 s.turnPoints s.players
        turnPoints := 0
        history := []
        currentIndex := (s.currentIndex + 1) % (bankMap s.currentIndex 0 s.turnPoints s.players).length
        finalRound := true
        finalLeaderIndex := some s.currentIndex
        finalLeaderScore := me0.score + s.turnPoints
        finalTurns := some (recSet ((bankMap s.currentIndex 0 s.turnPoints s.players).foldl
          (fun m p => recSet m p.id false) []) me0.id true)
        needsToPassPigs := false
        scoreHistory := s.scoreHistory ++
          [{ playerId := me0.id
             playerName := me0.name
             turnNumber := s.currentTurnNumber
             previousScore := me0.score
             newScore := me0.score + s.turnPoints
             pointsEarned := s.turnPoints
             action := ScoreAction.hold }]
        currentTurnNumber :=
          if (s.currentIndex + 1) % (bankMap s.currentIndex 0 s.turnPoints s.players).length = 0
          then s.currentTurnNumber + 1 else s.currentTurnNumber } := by
  simp only [holdState, hfr, htgt, eq_self_iff_true, and_true, true_and, and_self, if_true]

theorem holdState_final (s : GameState) (me0 : Player) (m : List (String × Bool))
    (hfr : s.finalRound = true) (hm : s.finalTurns = some m) :
    holdState s me0 =
      { s with
        players := bankMap s.currentIndex 0 s.turnPoints s.players
        turnPoints := 0
        history := []
        currentIndex := (s.currentIndex + 1) % (bankMap s.currentIndex 0 s.turnPoints s.players).length
        finalTurns := some (recSet m me0.id true)
        finalLeaderScore := max s.finalLeaderScore (me0.score + s.turnPoints)
        needsToPassPigs := false
        scoreHistory := s.scoreHistory ++
          [{ playerId := me0.id
             playerName := me0.name
             turnNumber := s.currentTurnNumber
             previousScore := me0.score
             newScore := me0.score + s.turnPoints
             pointsEarned := s.turnPoints
             action := ScoreAction.hold }]
        currentTurnNumber :=
          if (s.currentIndex + 1) % (bankMap s.currentIndex 0 s.turnPoints s.players).length = 0
          then s.currentTurnNumber + 1 else s.currentTurnNumber } := by
  simp only [holdState, hfr, hm, eq_self_iff_true, and_true, true_and, and_self, if_true,
    Bool.true_eq_false, false_and, if_false]

theorem holdState_normal_below (s : GameState) (me0 : Player)
    (hfr : s.finalRound = false) (hbelow : ¬ s.target ≤ me0.score + s.turnPoints) :
    holdState s me0 =
      holdNormal s (bankMap s.currentIndex 0 s.turnPoints s.players)
        { playerId := me0.id
          playerName := me0.name
          turnNumber := s.currentTurnNumber
          previousScore := me0.score
          newScore := me0.score + s.turnPoints
          pointsEarned := s.turnPoints
          action := ScoreAction.hold } := by
  cases hm : s.finalTurns with
  | none =>
    simp only [holdState, hfr, hm, hbelow, eq_self_iff_true, and_true, true_and, and_false,
      if_false]
  | some m =>
    simp only [holdState, hfr, hm, hbelow, eq_self_iff_true, and_true, true_and, and_false,
      if_false, Bool.false_eq_true]

theorem rollAction_final_frame (u1 u2 : ℚ) (s s' : GameState)
    (h : rollAction u1 u2 s = some s') :
    s'.finalRound = s.finalRound ∧ s'.finalTurns = s.finalTurns ∧
    s'.finalLeaderIndex = s.finalLeaderIndex ∧
    s'.finalLeaderScore = s.finalLeaderScore := by
  by_cases hw : winnerExists s = true
  · simp only [rollAction, hw, if_true] at h
    obtain rfl := Option.some.inj h
    exact ⟨rfl, rfl, rfl, rfl⟩
  · have hw' : winnerExists s = false := by simpa using hw
    simp only [rollAction, hw', Bool.false_eq_true, if_false] at h
    split at h <;>
      (obtain rfl := Option.some.inj h; exact ⟨rfl, rfl, rfl, rfl⟩)

theorem pass_final_step (s s' : GameState) (hfr : s.finalRound = true)
    (h : passAction s = some s') :
    s'.finalRound = true ∧
    (s.finalTurns.isSome = true → s'.finalTurns.isSome = true) ∧
    s'.finalLeaderIndex = s.finalLeaderIndex ∧
    s'.finalLeaderScore = s.finalLeaderScore ∧
    (∀ k, ftGet s.finalTurns k = some true → ftGet s'.finalTurns k = some true) := by
  unfold passAction at h
  by_cases hg : (winnerExists s || !s.needsToPassPigs) = true
  · rw [if_pos hg] at h
    obtain rfl := Option.some.inj h
    exact ⟨hfr, fun h' => h', rfl, rfl, fun k hk => hk⟩
  · rw [if_neg hg] at h
    cases hget : s.players.get? s.currentIndex with
    | none =>
      rw [hget] at h
      exact absurd h (by simp)
    | some cur =>
      rw [hget] at h
      obtain rfl := Option.some.inj h
      refine ⟨hfr, ?_, rfl, rfl, ?_⟩
      · intro hsome
        cases hm : s.finalTurns with
        | none => rw [hm] at hsome; simp at hsome
        | some m => simp [passState, hm]
      · intro k hk
        cases hm : s.finalTurns with
        | none => rw [hm] at hk; simp [ftGet] at hk
        | some m =>
          rw [hm] at hk
          simp only [ftGet] at hk
          simp only [passState, hm, hfr, if_true, ftGet]
          exact recGet_recSet_true_mono m k cur.id hk

theorem hold_final_step (s s' : GameState) (hfr : s.finalRound = true)
    (hft : s.finalTurns.isSome = true) (h : holdAction s = some s') :
    s'.finalRound = true ∧ s'.finalTurns.isSome = true ∧
    s'.finalLeaderIndex = s.finalLeaderIndex ∧
    s'.finalLeaderScore = (holdBanked s).foldl max s.finalLeaderScore ∧
    (∀ k, ftGet s.finalTurns k = some true → ftGet s'.finalTurns k = some true) := by
  by_cases hw : winnerExists s = true
  · simp only [holdAction, hw, if_true] at h
    obtain rfl := Option.some.inj h
    refine ⟨hfr, hft, rfl, ?_, fun k hk => hk⟩
    simp [holdBanked, hw]
  · have hw' : winnerExists s = false := by simpa using hw
    cases hget : s.players.get? s.currentIndex with
    | none =>
      simp only [holdAction, hw', Bool.false_eq_true, if_false] at h
      rw [hget] at h
      exact absurd h (by simp)
    | some me0 =>
      obtain ⟨m, hm⟩ : ∃ m, s.finalTurns = some m := Option.isSome_iff_exists.mp hft
      rw [holdAction_eq s me0 hw' hget] at h
      obtain rfl := Option.some.inj h
      rw [holdState_final s me0 m hfr hm]
      refine ⟨hfr, rfl, rfl, ?_, ?_⟩
      · have hb : holdBanked s = [me0.score + s.turnPoints] := by
          unfold holdBanked
          rw [if_neg (by simp [hw'])]
          rw [hget]
        rw [hb]
        simp
      · intro k hk
        rw [hm] at hk
        simp only [ftGet] at hk ⊢
        exact recGet_recSet_true_mono m k me0.id hk

/-! ## Claim theorems -/

/-- C5: for every action trace from a state with the final round active (and
its flag record present, as `hold()` guarantees on activation), the final
round stays active and keeps its record, the triggering index is never
re-seeded, used flags are never cleared, and `finalLeaderScore` is exactly
the running maximum of its starting value and every total banked by a
`hold()` during the trace — a forced pass or roll never changes it. -/
theorem c5_final_leader_running_max (tr : List Act) :
    ∀ s s', s.finalRound = true → s.finalTurns.isSome = true →
      applyActs tr s = some s' →
      s'.finalRound = true ∧ s'.finalTurns.isSome = true ∧
      s'.finalLeaderIndex = s.finalLeaderIndex ∧
      s'.finalLeaderScore = (traceBanked tr s).foldl max s.finalLeaderScore ∧
      (∀ k, ftGet s.finalTurns k = some true → ftGet s'.finalTurns k = some true) := by
  induction tr with
  | nil =>
    intro s s' h1 h2 h3
    obtain rfl := Option.some.inj h3
    exact ⟨h1, h2, rfl, by simp [traceBanked], fun k hk => hk⟩
  | cons a rest ih =>
    intro s s' h1 h2 h3
    simp only [applyActs] at h3
    cases ha : applyAct a s with
    | none => rw [ha] at h3; exact absurd h3 (by simp)
    | some s₁ =>
      rw [ha] at h3
      have step : s₁.finalRound = true ∧ s₁.finalTurns.isSome = true ∧
          s₁.finalLeaderIndex = s.finalLeaderIndex ∧
          s₁.finalLeaderScore = (stepBanked a s).foldl max s.finalLeaderScore ∧
          (∀ k, ftGet s.finalTurns k = some true → ftGet s₁.finalTurns k = some true) := by
        cases a with
        | roll u1 u2 =>
          obtain ⟨f1, f2, f3, f4⟩ := rollAction_final_frame u1 u2 s s₁ ha
          refine ⟨f1.trans h1, ?_, f3, by simp [stepBanked, f4], ?_⟩
          · rw [f2]; exact h2
          · intro k hk; rw [f2]; exact hk
        | pass =>
          obtain ⟨f1, f2, f3, f4, f5⟩ := pass_final_step s s₁ h1 ha
          exact ⟨f1, f2 h2, f3, by simp [stepBanked, f4], f5⟩
        | hold =>
          obtain ⟨f1, f2, f3, f4, f5⟩ := hold_final_step s s₁ h1 h2 ha
          exact ⟨f1, f2, f3, by simpa [stepBanked] using f4, f5⟩
      obtain ⟨k1, k2, k3, k4, k5⟩ := ih s₁ s' step.1 step.2.1 h3
      refine ⟨k1, k2, k3.trans step.2.2.1, ?_, fun k hk => k5 k (step.2.2.2.2 k hk)⟩
      rw [k4, step.2.2.2.1]
      have htb : traceBanked (a :: rest) s = stepBanked a s ++ traceBanked rest s₁ := by
        simp only [traceBanked, ha]
      rw [htb, List.foldl_append]

/-- C4: a winner exists exactly when the final round is active and every
flag of the final-turns record is `true`; and any winner is the first
player, in list iteration order, holding the (strictly) highest banked
score: every player scores at most the winner, and every player listed
before the winner scores strictly less. -/
theorem c4_winner_characterisation (s : GameState) (hp : s.players ≠ []) :
    ((winner s).isSome = (s.finalRound && allFinalTrue s.finalTurns)) ∧
    ∀ p, winner s = some p →
      (∀ q ∈ s.players, q.score ≤ p.score) ∧
      ∃ l₁ l₂, s.players = l₁ ++ p :: l₂ ∧ ∀ q ∈ l₁, q.score < p.score := by
  constructor
  · show (winner s).isSome = finalDone s
    by_cases hf : finalDone s = true
    · rw [hf]
      simp only [winner, hf, if_true]
      cases hl : s.players with
      | nil => exact absurd hl hp
      | cons p₀ rest =>
        rw [List.foldl_cons, show bestStep none p₀ = some p₀ from rfl,
          foldl_bestStep_some]
        rfl
    · have hf' : finalDone s = false := by simpa using hf
      rw [hf']
      simp [winner, hf']
  · intro p hwp
    have hf : finalDone s = true := by
      by_contra hf
      have hf' : finalDone s = false := by simpa using hf
      simp [winner, hf'] at hwp
    simp only [winner, hf, if_true] at hwp
    cases hl : s.players with
    | nil => exact absurd hl hp
    | cons p₀ rest =>
      rw [hl, List.foldl_cons, show bestStep none p₀ = some p₀ from rfl,
        foldl_bestStep_some] at hwp
      obtain hp' := Option.some.inj hwp
      constructor
      · intro q hq
        obtain ⟨h1, h2⟩ := foldl_bestP_le rest p₀
        rw [hp'] at h1 h2
        rcases List.mem_cons.mp hq with rfl | hq'
        · exact h1
        · exact h2 q hq'
      · rcases foldl_bestP_first rest p₀ with h1 | ⟨l₁, l₂, heq, hlt, hall⟩
        · rw [h1] at hp'
          subst hp'
          exact ⟨[], rest, by simp [hl], by simp⟩
        · rw [hp'] at heq hlt hall
          refine ⟨p₀ :: l₁, l₂, ?_, ?_⟩
          · rw [List.cons_append]
            exact congrArg (List.cons p₀) heq
          · intro q hq
            rcases List.mem_cons.mp hq with rfl | hq'
            · exact hlt
            · exact hall q hq'

/-- C3: when the final round is not yet active and a `hold()` banks a total
reaching the target, the resulting state has the final round active, the
final-turn flags seeded `false` for every player except the triggering
(current) player whose flag is `true`, the leader index and leader score
recording the triggering player and their new score, the turn points and
turn ledger cleared, and the current index advanced to the next player
modulo the player count. -/
theorem c3_final_round_trigger (s : GameState) (hi : s.currentIndex < s.players.length)
    (hfr : s.finalRound = false)
    (htgt : s.target ≤ (s.players.get ⟨s.currentIndex, hi⟩).score + s.turnPoints) :
    ∃ s', holdAction s = some s' ∧
      s'.finalRound = true ∧
      s'.finalLeaderIndex = some s.currentIndex ∧
      s'.finalLeaderScore = (s.players.get ⟨s.currentIndex, hi⟩).score + s.turnPoints ∧
      s'.turnPoints = 0 ∧
      s'.history = [] ∧
      s'.currentIndex = (s.currentIndex + 1) % s.players.length ∧
      ∀ p ∈ s.players, ftGet s'.finalTurns p.id =
        some (if p.id = (s.players.get ⟨s.currentIndex, hi⟩).id then true else false) := by
  set me0 := s.players.get ⟨s.currentIndex, hi⟩ with hme0
  have hg : s.players.get? s.currentIndex = some me0 := List.get?_eq_get hi
  have hw : winnerExists s = false := winnerExists_false_of_not_final s hfr
  refine ⟨holdState s me0, holdAction_eq s me0 hw hg, ?_⟩
  rw [holdState_trigger s me0 hfr htgt]
  refine ⟨rfl, rfl, rfl, rfl, rfl, ?_, ?_⟩
  · rw [bankMap_length]
  · intro p hp
    simp only [ftGet]
    by_cases hid : p.id = me0.id
    · rw [hid, if_pos rfl]
      exact recGet_recSet_same _ me0.id true
    · rw [if_neg hid]
      rw [recGet_recSet_other _ me0.id p.id true (fun he => hid he.symm)]
      have hmem : p.id ∈ (bankMap s.currentIndex 0 s.turnPoints s.players).map Player.id := by
        rw [bankMap_map_id]
        exact List.mem_map_of_mem Player.id hp
      rw [recGet_build, if_pos hmem]

/-- C9: in a no-winner state blocked on "Pass the Pigs", `pass()` ends the
turn with zero points banked: it appends exactly one score-history entry
with zero points earned, the forced-pass action kind and equal before/after
scores; marks the current player's final-round flag used when the final
round is active; clears the ledger and the turn points; advances the index
modulo the player count; bumps the turn counter exactly when the rotation
wraps to index 0; clears the blocked flag; and leaves every player (hence
every banked score) untouched. -/
theorem c9_forced_pass (s : GameState) (hnp : s.needsToPassPigs = true)
    (hw : winnerExists s = false) (hi : s.currentIndex < s.players.length) :
    ∃ s', passAction s = some s' ∧
      (∃ e, s'.scoreHistory = s.scoreHistory ++ [e] ∧ e.pointsEarned = 0 ∧
        e.action = ScoreAction.passPigs ∧ e.previousScore = e.newScore) ∧
      (s.finalRound = true → ∀ m, s.finalTurns = some m →
        ftGet s'.finalTurns (s.players.get ⟨s.currentIndex, hi⟩).id = some true) ∧
      s'.history = [] ∧ s'.turnPoints = 0 ∧
      s'.currentIndex = (s.currentIndex + 1) % s.players.length ∧
      s'.currentTurnNumber = (if (s.currentIndex + 1) % s.players.length = 0
        then s.currentTurnNumber + 1 else s.currentTurnNumber) ∧
      s'.needsToPassPigs = false ∧
      s'.players = s.players := by
  set cur := s.players.get ⟨s.currentIndex, hi⟩ with hcur
  have hg : s.players.get? s.currentIndex = some cur := List.get?_eq_get hi
  refine ⟨passState s cur, passAction_eq s cur hw hnp hg,
    ⟨_, rfl, rfl, rfl, rfl⟩, ?_, rfl, rfl, rfl, rfl, rfl, rfl⟩
  intro hfr m hm
  simp [passState, hm, hfr, ftGet]
  exact recGet_recSet_same m cur.id true

/-- C10 (implicit frame property): `hold()` changes at most the current
player's score — the list length, every player's id and name, and every
other player's score are unchanged — and `pass()` leaves the player list
entirely unchanged. -/
theorem c10_players_frame (s s' : GameState) :
    (holdAction s = some s' →
      s'.players.length = s.players.length ∧
      ∀ j, (s'.players.get? j).map Player.id = (s.players.get? j).map Player.id ∧
        (s'.players.get? j).map Player.name = (s.players.get? j).map Player.name ∧
        (j ≠ s.currentIndex →
          (s'.players.get? j).map Player.score = (s.players.get? j).map Player.score)) ∧
    (passAction s = some s' → s'.players = s.players) := by
  constructor
  · intro h
    by_cases hw : winnerExists s = true
    · simp only [holdAction, hw, if_true] at h
      obtain rfl := Option.some.inj h
      exact ⟨rfl, fun j => ⟨rfl, rfl, fun _ => rfl⟩⟩
    · have hw' : winnerExists s = false := by simpa using hw
      cases hget : s.players.get? s.currentIndex with
      | none =>
        simp only [holdAction, hw', Bool.false_eq_true, if_false] at h
        rw [hget] at h
        exact absurd h (by simp)
      | some me0 =>
        rw [holdAction_eq s me0 hw' hget] at h
        obtain rfl := Option.some.inj h
        have hpl : (holdState s me0).players =
            bankMap s.currentIndex 0 s.turnPoints s.players := by
          simp only [holdState]
          split
          · rfl
          · split
            · split
              · rfl
              · rfl
            · rfl
        rw [hpl]
        refine ⟨bankMap_length _ _ _ 0, ?_⟩
        intro j
        rw [bankMap_get?]
        simp only [Nat.zero_add]
        cases hj : s.players.get? j with
        | none => simp
        | some pj =>
          refine ⟨?_, ?_, ?_⟩
          · by_cases hji : j = s.currentIndex <;> simp [hji]
          · by_cases hji : j = s.currentIndex <;> simp [hji]
          · intro hjne
            simp [hjne]
  · intro h
    unfold passAction at h
    by_cases hg : (winnerExists s || !s.needsToPassPigs) = true
    · rw [if_pos hg] at h
      obtain rfl := Option.some.inj h
      rfl
    · rw [if_neg hg] at h
      cases hget : s.players.get? s.currentIndex with
      | none =>
        rw [hget] at h
        exact absurd h (by simp)
      | some cur =>
        rw [hget] at h
        obtain rfl := Option.some.inj h
        rfl

theorem rollAction_not_pigout (s : GameState) (a b : PigPose) (u1 u2 : ℚ)
    (hw : winnerExists s = false)
    (ha : randWeighted s.weights u1 = a) (hb : randWeighted s.weights u2 = b)
    (hpo : strStartsWith (scorePair a b).event "Pig Out" = false) :
    rollAction u1 u2 s = some { s with
      history := s.history ++
        [{ pigs := (a, b), points := (scorePair a b).points, event := (scorePair a b).event }]
      turnPoints := s.turnPoints + (scorePair a b).points } := by
  simp [rollAction, hw, ha, hb, hpo]

/-- C1: `scorePair` implements exactly the spec's rule table in its priority
order (`specScorePoints`), and its label begins with "Pig Out" — the
turn-ending marker the engine tests for — exactly on an opposite-sider
pair; in particular double Snouter scores 40 and Razorback+Trotter 10. -/
theorem c1_scorePair_rule_table :
    (∀ a b, (scorePair a b).points = specScorePoints a b ∧
      strStartsWith (scorePair a b).event "Pig Out" = oppositeSiders a b) ∧
    (scorePair snouter snouter).points = 40 ∧
    (scorePair razorback trotter).points = 10 := by
  exact ⟨by decide, by decide, by decide⟩

/-- C6 counterexample: the full result of `scorePair` is not symmetric in
its arguments — at (Razorback, Trotter) the two orders produce different
event labels (the label prints the poses in argument order). -/
theorem c6_full_result_asymmetric_cex :
    scorePair razorback trotter ≠ scorePair trotter razorback := by decide

/-- C6 (amended): the points of `scorePair` are symmetric for all 36 ordered
pairs; only the event label can differ between the two orders. -/
theorem c6_points_symmetric :
    ∀ a b, (scorePair a b).points = (scorePair b a).points := by decide

/-- C2 counterexample: in a no-winner state blocked on "Pass the Pigs",
`roll()` is not ignored — the source guard checks only `rolling || winner` —
so a same-sider roll changes the turn points (and extends the ledger). -/
theorem c2_roll_while_blocked_cex :
    sBlocked.needsToPassPigs = true ∧ winnerExists sBlocked = false ∧
    (rollAction 0 0 sBlocked).map GameState.turnPoints ≠ some sBlocked.turnPoints := by
  have ha : randWeighted sBlocked.weights 0 = siderLeft := randWeighted_const_zero 0
  have hro := rollAction_not_pigout sBlocked siderLeft siderLeft 0 0 rfl ha ha (by decide)
  refine ⟨rfl, rfl, ?_⟩
  rw [hro]
  decide

/-- C2 (amended): once the match is Complete (a winner exists), `roll()` and
`hold()` are silently-ignored no-ops — they return the state unchanged and
raise nothing.  (`roll()` during TurnBlockedOnPass is NOT ignored, see the
counterexample: the source guards only on `rolling || winner`.) -/
theorem c2_complete_actions_noop (s : GameState) (u1 u2 : ℚ)
    (h : winnerExists s = true) :
    rollAction u1 u2 s = some s ∧ holdAction s = some s := by
  constructor
  · simp [rollAction, h]
  · simp [holdAction, h]

/-- C2 witness: the no-op guarantee applied to a concrete completed match. -/
theorem c2_complete_actions_noop_witness :
    winnerExists sComplete = true ∧ rollAction 0 0 sComplete = some sComplete ∧
    holdAction sComplete = some sComplete := by
  have h : winnerExists sComplete = true := rfl
  exact ⟨h, (c2_complete_actions_noop sComplete 0 0 h).1,
    (c2_complete_actions_noop sComplete 0 0 h).2⟩

/-- C7 counterexample: with all weights zero the sampler deterministically
returns the FIRST pose of the fixed order (`Sider-Left`), not the last one
(`Leaning Jowler`) as claimed. -/
theorem c7_zero_weights_cex :
    randWeighted (fun _ => 0) 0 = siderLeft ∧
    randWeighted (fun _ => 0) 0 ≠ poseOrder.getLastD siderLeft := by
  constructor
  · exact randWeighted_const_zero 0
  · rw [randWeighted_const_zero 0]
    decide

/-- C7 (amended): for the all-zero weight map and every uniform draw, the
sampler deterministically returns the first pose of the fixed iteration
order, without raising: the remainder starts at 0 and the very first
subtract-and-test already succeeds. -/
theorem c7_zero_weights_first (u : ℚ) : randWeighted (fun _ => 0) u = siderLeft :=
  randWeighted_const_zero u

/-- C8 (amended): with a positive weight on exactly one pose `P` (all other
weights ≤ 0, clamped to zero), the sampler returns `P` for every strictly
positive uniform draw, i.e. every `u ∈ (0, 1)` — equivalently every
remainder in `(0, total)`.  At a draw of exactly 0 it instead returns the
first pose of the fixed order (see the counterexample). -/
theorem c8_single_positive_weight (w : PigPose → ℚ) (P : PigPose) (u : ℚ)
    (hP : 0 < w P) (hz : ∀ q, q ≠ P → w q ≤ 0) (h0 : 0 < u) (h1 : u < 1) :
    randWeighted w u = P := by
  have htot : clampedTotal w = w P := clampedTotal_single w P hP.le hz
  have hr0 : 0 < u * w P := mul_pos h0 hP
  have hrP : u * w P - w P ≤ 0 := by
    have h' := mul_le_mul_of_nonneg_right h1.le hP.le
    rw [one_mul] at h'
    linarith
  unfold randWeighted
  rw [htot]
  cases P with
  | siderLeft =>
    rw [show poseOrder =
      siderLeft :: [siderRight, razorback, trotter, snouter, leaningJowler] from rfl]
    rw [scanPose_hit w _ _ _ hP.le hrP]
  | siderRight =>
    have hz1 : ∀ q ∈ ([siderLeft] : List PigPose), w q ≤ 0 := by
      intro q hq
      fin_cases hq
      exact hz _ (by decide)
    rw [show poseOrder =
      [siderLeft] ++ siderRight :: [razorback, trotter, snouter, leaningJowler] from rfl]
    rw [scanPose_skip w _ hr0 [siderLeft] _ hz1]
    rw [scanPose_hit w _ _ _ hP.le hrP]
  | razorback =>
    have hz1 : ∀ q ∈ ([siderLeft, siderRight] : List PigPose), w q ≤ 0 := by
      intro q hq
      fin_cases hq <;> exact hz _ (by decide)
    rw [show poseOrder =
      [siderLeft, siderRight] ++ razorback :: [trotter, snouter, leaningJowler] from rfl]
    rw [scanPose_skip w _ hr0 [siderLeft, siderRight] _ hz1]
    rw [scanPose_hit w _ _ _ hP.le hrP]
  | trotter =>
    have hz1 : ∀ q ∈ ([siderLeft, siderRight, razorback] : List PigPose), w q ≤ 0 := by
      intro q hq
      fin_cases hq <;> exact hz _ (by decide)
    rw [show poseOrder =
      [siderLeft, siderRight, razorback] ++ trotter :: [snouter, leaningJowler] from rfl]
    rw [scanPose_skip w _ hr0 [siderLeft, siderRight, razorback] _ hz1]
    rw [scanPose_hit w _ _ _ hP.le hrP]
  | snouter =>
    have hz1 : ∀ q ∈ ([siderLeft, siderRight, razorback, trotter] : List PigPose),
        w q ≤ 0 := by
      intro q hq
      fin_cases hq <;> exact hz _ (by decide)
    rw [show poseOrder =
      [siderLeft, siderRight, razorback, trotter] ++ snouter :: [leaningJowler] from rfl]
    rw [scanPose_skip w _ hr0 [siderLeft, siderRight, razorback, trotter] _ hz1]
    rw [scanPose_hit w _ _ _ hP.le hrP]
  | leaningJowler =>
    have hz1 : ∀ q ∈ ([siderLeft, siderRight, razorback, trotter, snouter] : List PigPose),
        w q ≤ 0 := by
      intro q hq
      fin_cases hq <;> exact hz _ (by decide)
    rw [show poseOrder =
      [siderLeft, siderRight, razorback, trotter, snouter] ++ leaningJowler :: [] from rfl]
    rw [scanPose_skip w _ hr0 [siderLeft, siderRight, razorback, trotter, snouter] _ hz1]
    rw [scanPose_hit w _ _ _ hP.le hrP]

/-- C8 witness: weight 1 on Razorback, 0 elsewhere, draw 1/2 → Razorback. -/
theorem c8_single_positive_weight_witness :
    (0 : ℚ) < w8 razorback ∧ w8 siderLeft ≤ 0 ∧
    randWeighted w8 (1 / 2) = razorback := by
  refine ⟨by norm_num [w8], ?_, ?_⟩
  · show (if siderLeft = razorback then (1 : ℚ) else 0) ≤ 0
    rw [if_neg (by decide)]
  refine c8_single_positive_weight w8 razorback (1 / 2) (by norm_num [w8]) ?_
    (by norm_num) (by norm_num)
  intro q hq
  cases q
  case razorback => exact absurd rfl hq
  all_goals
    simp only [w8]
    rw [if_neg (by decide)]

/-- C8 counterexample: the claim quantifies over every draw in `[0, total)`;
at draw 0 the very first subtract-and-test already fires on the zero-weight
`Sider-Left`, so the sampler does not return the positively weighted
Razorback. -/
theorem c8_zero_draw_cex :
    randWeighted w8 0 = siderLeft ∧ siderLeft ≠ razorback ∧ (0 : ℚ) < w8 razorback := by
  exact ⟨randWeighted_zero_draw w8, by decide, by norm_num [w8]⟩

/-- C3 witness: 2 players, target 20, current player holds 25 turn points —
the final round activates, leader score 25, play moves to player 2. -/
theorem c3_final_round_trigger_witness :
    sTrig.finalRound = false ∧ sTrig.target ≤ 25 ∧
    (holdAction sTrig).map
      (fun t => (t.finalRound, t.finalLeaderIndex, t.finalLeaderScore,
        t.turnPoints, t.currentIndex)) = some (true, some 0, 25, 0, 1) := by
  obtain ⟨s', h1, h2, h3, h4, h5, h6, h7, h8⟩ :=
    c3_final_round_trigger sTrig (by decide) rfl (by decide)
  have hsc : s'.finalLeaderScore = 25 := h4.trans (by decide)
  have hci : s'.currentIndex = 1 := h7.trans (by decide)
  have hli : s'.finalLeaderIndex = some 0 := h3.trans (by decide)
  refine ⟨rfl, by decide, ?_⟩
  rw [h1]
  simp [h2, hli, hsc, h5, hci]

/-- C4 witness: the winner-existence equivalence applied to a concrete
completed match. -/
theorem c4_winner_characterisation_witness :
    sWin.players ≠ [] ∧
    ((winner sWin).isSome = (sWin.finalRound && allFinalTrue sWin.finalTurns)) := by
  have hp : sWin.players ≠ [] := by decide
  exact ⟨hp, (c4_winner_characterisation sWin hp).1⟩

/-- C5 witness: in a concrete active final round, a hold banking 10 (below
the leading 25) leaves the leader score at the running maximum 25 and the
leader index untouched. -/
theorem c5_final_leader_running_max_witness :
    sFinal.finalRound = true ∧ sFinal.finalTurns.isSome = true ∧
    applyActs [Act.hold] sFinal = some sFinalHeld ∧
    sFinalHeld.finalLeaderScore =
      (traceBanked [Act.hold] sFinal).foldl max sFinal.finalLeaderScore ∧
    sFinalHeld.finalLeaderIndex = sFinal.finalLeaderIndex := by
  have h : applyActs [Act.hold] sFinal = some sFinalHeld := rfl
  obtain ⟨k1, k2, k3, k4, k5⟩ :=
    c5_final_leader_running_max [Act.hold] sFinal sFinalHeld rfl rfl h
  exact ⟨rfl, rfl, h, k4, k3⟩

/-- C9 witness: a forced pass from a concrete blocked state clears the turn,
advances to player 2, appends one zero-point entry and changes no score. -/
theorem c9_forced_pass_witness :
    sPass.needsToPassPigs = true ∧
    (passAction sPass).map
      (fun t => (t.turnPoints, t.history, t.currentIndex, t.needsToPassPigs,
        t.players, t.scoreHistory.length)) =
      some (0, [], 1, false, sPass.players, 1) := by
  obtain ⟨s', h1, ⟨e, he, he0, hea, hes⟩, hflag, hh, htp, hci, hct, hnp, hpl⟩ :=
    c9_forced_pass sPass rfl rfl (by decide)
  have hci' : s'.currentIndex = 1 := hci.trans (by decide)
  have hlen : s'.scoreHistory.length = 1 := by
    rw [he]
    rfl
  refine ⟨rfl, ?_⟩
  rw [h1]
  simp [htp, hh, hci', hnp, hpl, hlen]

/-- C10 witness: a concrete hold leaves the other player's score (and the
list length) unchanged. -/
theorem c10_players_frame_witness :
    holdAction sHold = some (holdState sHold { id := "p1", name := "P1", score := 0 }) ∧
    ((holdState sHold { id := "p1", name := "P1", score := 0 }).players.get? 1).map
        Player.score = (sHold.players.get? 1).map Player.score ∧
    (holdState sHold { id := "p1", name := "P1", score := 0 }).players.length =
      sHold.players.length := by
  have hh : holdAction sHold =
      some (holdState sHold { id := "p1", name := "P1", score := 0 }) := rfl
  obtain ⟨hlen, hj⟩ := (c10_players_frame sHold _).1 hh
  exact ⟨hh, (hj 1).2.2 (by decide), hlen⟩
